import Mathlib

/-!
Verification of the Listings Pipeline of `finalcode.py` (Boston Airbnb
dashboard).  The pipeline part of the program is embedded shallowly:

* `load_data` (lines 26-43): reads three tabular sources, cleans the
  listings price column (`replace(r'\$|,', '', regex=True).astype(float)`),
  fills missing `reviews_per_month` with 0, derives
  `price_per_night = price / minimum_nights`, and on any exception returns
  `(None, None, None)`.
* `filter_listings` (lines 59-61): rows whose `neighbourhood` equals the
  given name and whose price lies in the closed range (pandas `between`
  is inclusive on both ends by default).
* `neighborhood_summary` (lines 84-92): `groupby('neighbourhood')` with
  mean price, summed `number_of_reviews` and counted `availability_365`
  (all values non-null in the model, so the count is the group size);
  pandas sorts the group keys ascending.
* `sorted_listings` (lines 179-181): `sort_values(by='price',
  ascending=False)` followed by `head(20)`; generalised as the spec's
  `topByMetric`.

Modelling choices, recorded once here: CSV cells are already split into
fields (a source is `Option (List RawListing)`, `none` standing for an
unreadable or malformed source, e.g. a missing required column); machine
floats are exact rationals extended with the IEEE specials `+inf`, `-inf`
and `NaN` that numpy produces on division by zero; Python float parsing is
modelled for sign/digits/decimal-point numerals (exponent and textual
inf/nan forms do not occur in the data and are rejected); the library
sort behind `sort_values` is modelled as the stable descending sort, the
deterministic tie policy the specification assigns to it; columns the
claims never touch (latitude, longitude, ids, dates) are omitted from the
row types.
-/

namespace AirbnbPipeline

/-- Result of a float division as numpy/pandas produce it: a finite value
(an exact rational in the model), or one of the specials arising from a
zero denominator. -/
inductive FVal where
  | fin : ℚ → FVal
  | posInf : FVal
  | negInf : FVal
  | nan : FVal
deriving DecidableEq

/-- Float division of `price / minimum_nights` as the pandas Series division
performs it: ordinary division for a nonzero denominator, and the IEEE
specials (`+inf`, `-inf`, `NaN` by the numerator's sign) for a zero
denominator; the operation never raises. -/
def fdiv (p : ℚ) (m : ℤ) : FVal :=
  if m = 0 then
    if 0 < p then FVal.posInf else if p < 0 then FVal.negInf else FVal.nan
  else FVal.fin (p / (m : ℚ))

/-- Value of a digit string read left to right in base 10. -/
def natOfDigits (ds : List Char) : ℕ :=
  ds.foldl (fun a c => a * 10 + (c.toNat - 48)) 0

/-- All characters are decimal digits. -/
def allDigits (ds : List Char) : Bool :=
  ds.all (fun c => c.isDigit)

/-- Unsigned decimal numeral: digits with an optional fractional part,
the forms `Python float()` accepts for this data (`"1234"`, `"1234.50"`,
`".5"`, `"1."`); anything else is a conversion failure. -/
def parseUnsigned (cs : List Char) : Option ℚ :=
  match cs.dropWhile (fun c => c ≠ '.') with
  | [] =>
    if cs.takeWhile (fun c => c ≠ '.') ≠ [] ∧ allDigits (cs.takeWhile (fun c => c ≠ '.')) then
      some (natOfDigits (cs.takeWhile (fun c => c ≠ '.')) : ℚ)
    else none
  | _ :: frac =>
    if (cs.takeWhile (fun c => c ≠ '.') ≠ [] ∨ frac ≠ []) ∧
        allDigits (cs.takeWhile (fun c => c ≠ '.')) ∧ allDigits frac then
      some ((natOfDigits (cs.takeWhile (fun c => c ≠ '.')) : ℚ) +
        (natOfDigits frac : ℚ) / (10 : ℚ) ^ frac.length)
    else none

/-- Signed decimal numeral: an optional leading sign followed by an
unsigned numeral. -/
def parseSigned : List Char → Option ℚ
  | [] => none
  | c :: rest =>
    if c = '-' then (parseUnsigned rest).map (fun q => -q)
    else if c = '+' then parseUnsigned rest
    else parseUnsigned (c :: rest)

/-- The conversion `astype(float)` applies to each cleaned price cell. -/
def parseFloatQ (s : String) : Option ℚ :=
  parseSigned s.data

/-- The regex replacement on the price column: every dollar sign and every
comma is deleted, the rest of the string is kept. -/
def cleanPriceStr (s : String) : String :=
  ⟨s.data.filter (fun c => (c != '$') && (c != ','))⟩

/-- One row of the raw listings CSV, the columns the pipeline touches.
`price` is the formatted currency string; `reviews_per_month` may be
absent (NaN in the file). -/
structure RawListing where
  name : String
  neighbourhood : String
  price : String
  minimum_nights : ℤ
  number_of_reviews : ℤ
  reviews_per_month : Option ℚ
  availability_365 : ℤ
deriving DecidableEq

/-- One row of a reviews table; pass-through data, never transformed. -/
structure Review where
  listing_id : ℤ
  date : String
deriving DecidableEq

/-- One row of the neighbourhoods table; pass-through data. -/
structure Neighborhood where
  neighbourhood : String
deriving DecidableEq

/-- One normalized listing row after `load_data`: price converted to a
number, `reviews_per_month` filled, `price_per_night` derived. -/
structure Listing where
  name : String
  neighbourhood : String
  price : ℚ
  minimum_nights : ℤ
  number_of_reviews : ℤ
  reviews_per_month : ℚ
  availability_365 : ℤ
  price_per_night : FVal
deriving DecidableEq

/-- Cleaning of one listings row, the per-row effect of lines 34-38:
price cleaned and converted (failure here is the one per-row failure,
caught by the surrounding `except`), missing `reviews_per_month` replaced
by 0, `price_per_night` derived by float division. -/
def normalizeRow (r : RawListing) : Option Listing :=
  match parseFloatQ (cleanPriceStr r.price) with
  | none => none
  | some q =>
    some { name := r.name
           neighbourhood := r.neighbourhood
           price := q
           minimum_nights := r.minimum_nights
           number_of_reviews := r.number_of_reviews
           reviews_per_month := r.reviews_per_month.getD 0
           availability_365 := r.availability_365
           price_per_night := fdiv q r.minimum_nights }

/-- Cleaning of the whole listings table; the vectorized column operations
succeed exactly when every row succeeds. -/
def loadListings : List RawListing → Option (List Listing)
  | [] => some []
  | r :: rs =>
    match normalizeRow r, loadListings rs with
    | some l, some ls => some (l :: ls)
    | _, _ => none

/-- The function `load_data` (lines 26-43).  A source is `none` when it
cannot be opened or parsed or lacks a required column.  Any failure,
including a price cell that cannot be converted, lands in the `except`
branch, which returns the triple `(None, None, None)`. -/
def load_data (lsrc : Option (List RawListing)) (rsrc : Option (List Review))
    (nsrc : Option (List Neighborhood)) :
    Option (List Listing) × Option (List Review) × Option (List Neighborhood) :=
  match lsrc, rsrc, nsrc with
  | some raw, some rs, some ns =>
    match loadListings raw with
    | some ls => (some ls, some rs, some ns)
    | none => (none, none, none)
  | _, _, _ => (none, none, none)

/-- The function `filter_listings` (lines 59-61), with the listings table
passed explicitly (the script reads it from a module-level global) and the
price range a closed interval, as pandas `between` checks it with its
default `inclusive="both"`. -/
def filter_listings (listings : List Listing) (neighborhood : String)
    (price_range : ℚ × ℚ) : List Listing :=
  listings.filter (fun l =>
    (l.neighbourhood == neighborhood) &&
    (decide (price_range.1 ≤ l.price) && decide (l.price ≤ price_range.2)))

/- ### Basic inversion lemmas about the load pipeline -/

theorem loadListings_nil : loadListings [] = some [] := rfl

theorem loadListings_cons_eq_some {r : RawListing} {rs : List RawListing}
    {out : List Listing} (h : loadListings (r :: rs) = some out) :
    ∃ l ls, normalizeRow r = some l ∧ loadListings rs = some ls ∧ out = l :: ls := by
  cases hr : normalizeRow r with
  | none => simp [loadListings, hr] at h
  | some l =>
    cases hrs : loadListings rs with
    | none => simp [loadListings, hr, hrs] at h
    | some ls =>
      refine ⟨l, ls, rfl, rfl, ?_⟩
      simp [loadListings, hr, hrs] at h
      exact h.symm

theorem normalizeRow_eq_some {r : RawListing} {l : Listing}
    (h : normalizeRow r = some l) :
    parseFloatQ (cleanPriceStr r.price) = some l.price ∧
    l.name = r.name ∧
    l.neighbourhood = r.neighbourhood ∧
    l.minimum_nights = r.minimum_nights ∧
    l.number_of_reviews = r.number_of_reviews ∧
    l.reviews_per_month = r.reviews_per_month.getD 0 ∧
    l.availability_365 = r.availability_365 ∧
    l.price_per_night = fdiv l.price l.minimum_nights := by
  cases hq : parseFloatQ (cleanPriceStr r.price) with
  | none => simp [normalizeRow, hq] at h
  | some q =>
    simp only [normalizeRow, hq] at h
    cases h
    simp

theorem loadListings_mem {raw : List RawListing} {ls : List Listing}
    (h : loadListings raw = some ls) :
    ∀ l ∈ ls, ∃ r ∈ raw, normalizeRow r = some l := by
  induction raw generalizing ls with
  | nil =>
    cases h
    intro l hl
    cases hl
  | cons r rs ih =>
    obtain ⟨l0, ls0, hr0, hrs0, rfl⟩ := loadListings_cons_eq_some h
    intro l hl
    rcases List.mem_cons.mp hl with rfl | hl
    · exact ⟨r, List.mem_cons_self _ _, hr0⟩
    · obtain ⟨r2, hr2, he⟩ := ih hrs0 l hl
      exact ⟨r2, List.mem_cons_of_mem _ hr2, he⟩

theorem loadListings_length {raw : List RawListing} {ls : List Listing}
    (h : loadListings raw = some ls) : ls.length = raw.length := by
  induction raw generalizing ls with
  | nil => cases h; rfl
  | cons r rs ih =>
    obtain ⟨l0, ls0, _, hrs0, rfl⟩ := loadListings_cons_eq_some h
    simp [ih hrs0]

theorem loadListings_get {raw : List RawListing} {ls : List Listing}
    (h : loadListings raw = some ls) :
    ∀ i : ℕ, ∀ h1 : i < ls.length, ∀ h2 : i < raw.length,
      normalizeRow (raw.get ⟨i, h2⟩) = some (ls.get ⟨i, h1⟩) := by
  induction raw generalizing ls with
  | nil =>
    cases h
    intro i h1
    cases h1
  | cons r rs ih =>
    obtain ⟨l0, ls0, hr0, hrs0, rfl⟩ := loadListings_cons_eq_some h
    intro i h1 h2
    cases i with
    | zero => simpa using hr0
    | succ j =>
      have h1j : j < ls0.length := by simpa using h1
      have h2j : j < rs.length := by simpa using h2
      simpa using ih hrs0 j h1j h2j

theorem loadListings_isSome {raw : List RawListing}
    (h : ∀ r ∈ raw, (normalizeRow r).isSome) :
    ∃ ls, loadListings raw = some ls := by
  induction raw with
  | nil => exact ⟨[], rfl⟩
  | cons r rs ih =>
    obtain ⟨ls, hls⟩ := ih (fun x hx => h x (List.mem_cons_of_mem _ hx))
    have hr := h r (List.mem_cons_self _ _)
    cases hr0 : normalizeRow r with
    | none => rw [hr0] at hr; cases hr
    | some l => exact ⟨l :: ls, by simp [loadListings, hr0, hls]⟩

/-- Claim C1: `load_data` is all-or-nothing over the three sources.  On any
unreadable or malformed source, and on any unconvertible price cell, it
returns the triple of absent tables; whenever it does not fail, all three
tables are present; never a mix. -/
theorem load_data_all_or_nothing (lsrc : Option (List RawListing))
    (rsrc : Option (List Review)) (nsrc : Option (List Neighborhood)) :
    ((∃ a b c, load_data lsrc rsrc nsrc = (some a, some b, some c)) ∨
      load_data lsrc rsrc nsrc = (none, none, none)) ∧
    ((lsrc = none ∨ rsrc = none ∨ nsrc = none) →
      load_data lsrc rsrc nsrc = (none, none, none)) ∧
    (∀ raw, lsrc = some raw → loadListings raw = none →
      load_data lsrc rsrc nsrc = (none, none, none)) := by
  refine ⟨?_, ?_, ?_⟩
  · cases lsrc with
    | none => exact Or.inr rfl
    | some raw =>
      cases rsrc with
      | none => exact Or.inr rfl
      | some rs =>
        cases nsrc with
        | none => exact Or.inr rfl
        | some ns =>
          cases hl : loadListings raw with
          | none => exact Or.inr (by simp [load_data, hl])
          | some ls => exact Or.inl ⟨ls, rs, ns, by simp [load_data, hl]⟩
  · rintro (rfl | rfl | rfl)
    · rfl
    · cases lsrc <;> rfl
    · cases lsrc <;> try rfl
      cases rsrc <;> rfl
  · rintro raw rfl hraw
    cases rsrc <;> [rfl; skip]
    cases nsrc <;> [rfl; skip]
    simp [load_data, hraw]

/-- Claim C2: `filter_listings` is exactly the order-preserving
subsequence of rows whose neighbourhood matches the given name exactly and
whose price lies in the closed interval: it equals the filter of the table
by that predicate, it is a sublist of the table, every returned row
satisfies both conditions (bounds inclusive), and every row of the table
satisfying them is returned. -/
theorem filter_listings_correct (ls : List Listing) (nb : String) (lo hi : ℚ) :
    filter_listings ls nb (lo, hi) =
      ls.filter (fun l => decide (l.neighbourhood = nb ∧ lo ≤ l.price ∧ l.price ≤ hi)) ∧
    (filter_listings ls nb (lo, hi)).Sublist ls ∧
    (∀ l ∈ filter_listings ls nb (lo, hi),
      l.neighbourhood = nb ∧ lo ≤ l.price ∧ l.price ≤ hi) ∧
    (∀ l ∈ ls, l.neighbourhood = nb → lo ≤ l.price → l.price ≤ hi →
      l ∈ filter_listings ls nb (lo, hi)) := by
  have hpred : ∀ l : Listing,
      ((l.neighbourhood == nb) && (decide (lo ≤ l.price) && decide (l.price ≤ hi))) =
        decide (l.neighbourhood = nb ∧ lo ≤ l.price ∧ l.price ≤ hi) := by
    intro l
    by_cases h1 : l.neighbourhood = nb <;>
      by_cases h2 : lo ≤ l.price <;>
        by_cases h3 : l.price ≤ hi <;>
          simp [h1, h2, h3]
  have heq : filter_listings ls nb (lo, hi) =
      ls.filter (fun l => decide (l.neighbourhood = nb ∧ lo ≤ l.price ∧ l.price ≤ hi)) := by
    unfold filter_listings
    exact List.filter_congr (fun l _ => hpred l)
  refine ⟨heq, ?_, ?_, ?_⟩
  · rw [heq]; exact List.filter_sublist ls
  · intro l hl
    rw [heq] at hl
    exact of_decide_eq_true (List.mem_filter.mp hl).2
  · intro l hl h1 h2 h3
    rw [heq]
    exact List.mem_filter_of_mem hl (decide_eq_true ⟨h1, h2, h3⟩)

/-- Claim C8: filtering by a neighbourhood that occurs nowhere in the
table yields the empty list, not a failure. -/
theorem filter_listings_absent_empty (ls : List Listing) (nb : String)
    (pr : ℚ × ℚ) (h : ∀ l ∈ ls, l.neighbourhood ≠ nb) :
    filter_listings ls nb pr = [] := by
  unfold filter_listings
  rw [List.filter_eq_nil_iff]
  intro l hl
  simp [h l hl]

/-- Claim C8 witness: a concrete two-row table with no row in
neighbourhood `"Nowhere"` filters to the empty list. -/
theorem filter_listings_absent_empty_witness :
    filter_listings
      [⟨"L1", "Downtown", 100, 2, 5, 1, 200, FVal.fin 50⟩,
       ⟨"L2", "Back Bay", 80, 1, 3, 0, 100, FVal.fin 80⟩]
      "Nowhere" (50, 300) = [] :=
  filter_listings_absent_empty _ _ _ (by decide)

/- ### Sign and success facts about the price conversion -/

theorem parseUnsigned_nonneg {cs : List Char} {q : ℚ}
    (h : parseUnsigned cs = some q) : 0 ≤ q := by
  unfold parseUnsigned at h
  split at h <;> split_ifs at h <;> (injection h with h; subst h; positivity)

theorem parseFloatQ_nonneg {s : String} {q : ℚ}
    (h : parseFloatQ s = some q) (hm : ∀ c ∈ s.data, c ≠ '-') : 0 ≤ q := by
  unfold parseFloatQ at h
  cases hd : s.data with
  | nil => rw [hd] at h; cases h
  | cons c rest =>
    rw [hd] at h
    simp only [parseSigned] at h
    have hc : c ≠ '-' := hm c (by rw [hd]; exact List.mem_cons_self c rest)
    rw [if_neg hc] at h
    by_cases hp : c = '+'
    · rw [if_pos hp] at h
      exact parseUnsigned_nonneg h
    · rw [if_neg hp] at h
      exact parseUnsigned_nonneg h

theorem normalizeRow_of_parse {r : RawListing} {q : ℚ}
    (h : parseFloatQ (cleanPriceStr r.price) = some q) :
    normalizeRow r = some ⟨r.name, r.neighbourhood, q, r.minimum_nights,
      r.number_of_reviews, r.reviews_per_month.getD 0, r.availability_365,
      fdiv q r.minimum_nights⟩ := by
  unfold normalizeRow
  rw [h]

theorem normalizeRow_isSome {r : RawListing}
    (h : (parseFloatQ (cleanPriceStr r.price)).isSome) :
    (normalizeRow r).isSome := by
  cases hq : parseFloatQ (cleanPriceStr r.price) with
  | none => rw [hq] at h; cases h
  | some q => simp [normalizeRow, hq]

/-- Claim C5: price normalization strips the dollar sign and the thousands
separator before numeric conversion: a raw price cell `"$1,234.50"` is
normalized to the number 1234.50. -/
theorem price_normalization_strips_formatting (r : RawListing)
    (h : r.price = "$1,234.50") :
    ∃ l, normalizeRow r = some l ∧ l.price = 2469 / 2 := by
  have hp : parseFloatQ (cleanPriceStr r.price)
      = some (((1234 : ℕ) : ℚ) + ((50 : ℕ) : ℚ) / (10 : ℚ) ^ 2) := by
    rw [h]
    rfl
  refine ⟨_, normalizeRow_of_parse hp, ?_⟩
  show (((1234 : ℕ) : ℚ) + ((50 : ℕ) : ℚ) / (10 : ℚ) ^ 2) = 2469 / 2
  norm_num

/-- Claim C5 witness: the normalization applied to one concrete raw row
whose price cell reads `"$1,234.50"`. -/
theorem price_normalization_strips_formatting_witness :
    ∃ l, normalizeRow ⟨"L", "Downtown", "$1,234.50", 2, 4, some 1, 120⟩ = some l ∧
      l.price = 2469 / 2 :=
  price_normalization_strips_formatting ⟨"L", "Downtown", "$1,234.50", 2, 4, some 1, 120⟩ rfl

/-- Claim C6: after a successful load every listing's `price_per_night`
equals its normalized price divided by its `minimum_nights` (float
division), and in particular price 300 over 3 nights gives 100. -/
theorem price_per_night_after_load (raw : List RawListing) (ls : List Listing)
    (h : loadListings raw = some ls) :
    (∀ l ∈ ls, l.price_per_night = fdiv l.price l.minimum_nights) ∧
    fdiv 300 3 = FVal.fin 100 := by
  constructor
  · intro l hl
    obtain ⟨r, _, hr⟩ := loadListings_mem h l hl
    exact (normalizeRow_eq_some hr).2.2.2.2.2.2.2
  · rw [show fdiv 300 3 = FVal.fin (300 / ((3 : ℤ) : ℚ)) from rfl]
    norm_num

/-- Claim C6 witness: a one-row table with price string `"300"` and three
minimum nights, loaded concretely. -/
theorem price_per_night_after_load_witness :
    (∀ l ∈ [(⟨"L", "A", ((300 : ℕ) : ℚ), 3, 0, 0, 10,
        fdiv ((300 : ℕ) : ℚ) 3⟩ : Listing)],
      l.price_per_night = fdiv l.price l.minimum_nights) ∧
    fdiv 300 3 = FVal.fin 100 :=
  price_per_night_after_load [⟨"L", "A", "300", 3, 0, none, 10⟩]
    [⟨"L", "A", ((300 : ℕ) : ℚ), 3, 0, 0, 10, fdiv ((300 : ℕ) : ℚ) 3⟩] rfl

/-- Claim C7: after a successful load the `reviews_per_month` column has no
missing entries: row for row, an originally present value is kept and an
originally missing one equals 0. -/
theorem reviews_per_month_filled (raw : List RawListing) (ls : List Listing)
    (h : loadListings raw = some ls) :
    ls.length = raw.length ∧
    ∀ i : ℕ, ∀ h1 : i < ls.length, ∀ h2 : i < raw.length,
      (ls.get ⟨i, h1⟩).reviews_per_month = ((raw.get ⟨i, h2⟩).reviews_per_month).getD 0 := by
  refine ⟨loadListings_length h, ?_⟩
  intro i h1 h2
  exact (normalizeRow_eq_some (loadListings_get h i h1 h2)).2.2.2.2.2.1

/-- Claim C7 witness: a two-row table, one row with `reviews_per_month`
present (kept) and one with it missing (filled with 0). -/
theorem reviews_per_month_filled_witness :
    ([(⟨"A", "A", ((10 : ℕ) : ℚ), 1, 0, 5 / 2, 3, fdiv ((10 : ℕ) : ℚ) 1⟩ : Listing),
      ⟨"B", "B", ((20 : ℕ) : ℚ), 1, 0, 0, 4, fdiv ((20 : ℕ) : ℚ) 1⟩].length =
      [(⟨"A", "A", "10", 1, 0, some (5 / 2), 3⟩ : RawListing),
       ⟨"B", "B", "20", 1, 0, none, 4⟩].length) ∧
    ∀ i : ℕ,
      ∀ h1 : i < [(⟨"A", "A", ((10 : ℕ) : ℚ), 1, 0, 5 / 2, 3, fdiv ((10 : ℕ) : ℚ) 1⟩ : Listing),
        ⟨"B", "B", ((20 : ℕ) : ℚ), 1, 0, 0, 4, fdiv ((20 : ℕ) : ℚ) 1⟩].length,
      ∀ h2 : i < [(⟨"A", "A", "10", 1, 0, some (5 / 2), 3⟩ : RawListing),
        ⟨"B", "B", "20", 1, 0, none, 4⟩].length,
      ([(⟨"A", "A", ((10 : ℕ) : ℚ), 1, 0, 5 / 2, 3, fdiv ((10 : ℕ) : ℚ) 1⟩ : Listing),
        ⟨"B", "B", ((20 : ℕ) : ℚ), 1, 0, 0, 4, fdiv ((20 : ℕ) : ℚ) 1⟩].get ⟨i, h1⟩).reviews_per_month =
        (([(⟨"A", "A", "10", 1, 0, some (5 / 2), 3⟩ : RawListing),
          ⟨"B", "B", "20", 1, 0, none, 4⟩].get ⟨i, h2⟩).reviews_per_month).getD 0 :=
  reviews_per_month_filled
    [⟨"A", "A", "10", 1, 0, some (5 / 2), 3⟩, ⟨"B", "B", "20", 1, 0, none, 4⟩]
    [⟨"A", "A", ((10 : ℕ) : ℚ), 1, 0, 5 / 2, 3, fdiv ((10 : ℕ) : ℚ) 1⟩,
     ⟨"B", "B", ((20 : ℕ) : ℚ), 1, 0, 0, 4, fdiv ((20 : ℕ) : ℚ) 1⟩] rfl

/-- Claim C9 counterexample: the cleaning step only deletes dollar signs
and commas, and the numeric conversion accepts a leading minus, so a raw
price cell `"-5"` loads successfully to the negative normalized price -5;
nothing in `load_data` enforces non-negativity. -/
theorem price_nonneg_counterexample :
    ∃ ls, loadListings [⟨"L", "A", "-5", 1, 0, none, 10⟩] = some ls ∧
      ∃ l ∈ ls, l.price < 0 := by
  refine ⟨[⟨"L", "A", -((5 : ℕ) : ℚ), 1, 0, 0, 10, fdiv (-((5 : ℕ) : ℚ)) 1⟩],
    rfl, ⟨"L", "A", -((5 : ℕ) : ℚ), 1, 0, 0, 10, fdiv (-((5 : ℕ) : ℚ)) 1⟩,
    List.mem_singleton.mpr rfl, ?_⟩
  norm_num

/-- Claim C9 as amended: provided no raw price cell still contains a minus
sign after the dollar signs and commas are stripped, every successfully
loaded listing has a non-negative normalized price. -/
theorem price_nonneg_amended (raw : List RawListing) (ls : List Listing)
    (h : loadListings raw = some ls)
    (hs : ∀ r ∈ raw, ∀ c ∈ (cleanPriceStr r.price).data, c ≠ '-') :
    ∀ l ∈ ls, 0 ≤ l.price := by
  intro l hl
  obtain ⟨r, hr, he⟩ := loadListings_mem h l hl
  exact parseFloatQ_nonneg (normalizeRow_eq_some he).1 (hs r hr)

/-- Claim C9 witness: a concrete one-row table with price `"$1,250"`,
loaded to the non-negative price 1250. -/
theorem price_nonneg_amended_witness :
    (0 : ℚ) ≤ ((⟨"L", "A", ((1250 : ℕ) : ℚ), 2, 0, 0, 10,
      fdiv ((1250 : ℕ) : ℚ) 2⟩ : Listing)).price :=
  price_nonneg_amended [⟨"L", "A", "$1,250", 2, 0, none, 10⟩]
    [⟨"L", "A", ((1250 : ℕ) : ℚ), 2, 0, 0, 10, fdiv ((1250 : ℕ) : ℚ) 2⟩]
    rfl (by decide) _ (List.mem_singleton.mpr rfl)

/-- Claim C10: the `price_per_night` division never makes `load_data` fail
on its own.  Whenever every price cell converts, the load succeeds and
keeps every row, including rows with `minimum_nights = 0`, whose
`price_per_night` is `+inf` for a positive price and `NaN` for a zero
price, numpy's division-by-zero values. -/
theorem load_keeps_min_nights_zero (raw : List RawListing)
    (h : ∀ r ∈ raw, (parseFloatQ (cleanPriceStr r.price)).isSome) :
    ∃ ls, loadListings raw = some ls ∧ ls.length = raw.length ∧
      ∀ l ∈ ls, l.minimum_nights = 0 →
        (0 < l.price → l.price_per_night = FVal.posInf) ∧
        (l.price = 0 → l.price_per_night = FVal.nan) := by
  obtain ⟨ls, hls⟩ := loadListings_isSome (fun r hr => normalizeRow_isSome (h r hr))
  refine ⟨ls, hls, loadListings_length hls, ?_⟩
  intro l hl hmn
  obtain ⟨r, _, he⟩ := loadListings_mem hls l hl
  have hppn := (normalizeRow_eq_some he).2.2.2.2.2.2.2
  rw [hppn]
  unfold fdiv
  rw [if_pos hmn]
  constructor
  · intro hp
    rw [if_pos hp]
  · intro hp
    rw [if_neg (by simp [hp]), if_neg (by simp [hp])]

/-- Claim C10 witness: a table whose two rows both have zero minimum
nights, one with positive price (giving `+inf`) and one with zero price
(giving `NaN`), loads whole. -/
theorem load_keeps_min_nights_zero_witness :
    ∃ ls, loadListings
        [⟨"Z", "A", "300", 0, 1, some 1, 5⟩, ⟨"Y", "A", "0", 0, 1, none, 5⟩] = some ls ∧
      ls.length =
        ([⟨"Z", "A", "300", 0, 1, some 1, 5⟩,
          ⟨"Y", "A", "0", 0, 1, none, 5⟩] : List RawListing).length ∧
      ∀ l ∈ ls, l.minimum_nights = 0 →
        (0 < l.price → l.price_per_night = FVal.posInf) ∧
        (l.price = 0 → l.price_per_night = FVal.nan) :=
  load_keeps_min_nights_zero
    [⟨"Z", "A", "300", 0, 1, some 1, 5⟩, ⟨"Y", "A", "0", 0, 1, none, 5⟩]
    (by decide)

/- ### Grouping and aggregation (`neighborhood_summary`, lines 84-92) -/

/-- One row of the `neighborhood_summary` table: the aggregates pandas
computes per group, under the renamed columns of lines 88-92. -/
structure SummaryRow where
  neighbourhood : String
  averagePrice : ℚ
  totalReviews : ℤ
  availableListingsCount : ℕ
deriving DecidableEq

/-- Lexicographic comparison of character lists by code point, the order
Python puts on strings; written as a structural Boolean function so that it
evaluates. -/
def charListLE : List Char → List Char → Bool
  | [], _ => true
  | _ :: _, [] => false
  | a :: as, b :: bs =>
    if a < b then true else if b < a then false else charListLE as bs

/-- The distinct group keys in ascending order, as `groupby` with its
default `sort=True` returns them. -/
def groupKeys (ls : List Listing) : List String :=
  @List.insertionSort String (fun a b => charListLE a.data b.data = true)
    (fun a b => inferInstanceAs (Decidable (charListLE a.data b.data = true)))
    ((ls.map (fun l => l.neighbourhood)).dedup)

/-- The rows of one neighbourhood group, in table order. -/
def groupOf (ls : List Listing) (k : String) : List Listing :=
  ls.filter (fun l => l.neighbourhood == k)

/-- The aggregate row of one group: mean of `price`, sum of
`number_of_reviews`, and the count of `availability_365` entries, which in
the model (no nulls in that column) is the group size. -/
def summaryRowOf (ls : List Listing) (k : String) : SummaryRow :=
  { neighbourhood := k
    averagePrice := ((groupOf ls k).map (fun l => l.price)).sum / ((groupOf ls k).length : ℚ)
    totalReviews := ((groupOf ls k).map (fun l => l.number_of_reviews)).sum
    availableListingsCount := (groupOf ls k).length }

/-- The aggregation `neighborhood_summary` of lines 84-92: one aggregate
row per distinct neighbourhood key. -/
def neighborhood_summary (ls : List Listing) : List SummaryRow :=
  (groupKeys ls).map (summaryRowOf ls)

/-- The two-neighbourhood table of the specification's worked example:
group A with prices 100, 200 and reviews 5, 3; group B with price 50 and
review 1. -/
def exTableC3 : List Listing :=
  [⟨"p", "A", 100, 1, 5, 0, 10, FVal.fin 100⟩,
   ⟨"q", "B", 50, 1, 1, 0, 10, FVal.fin 50⟩,
   ⟨"r", "A", 200, 1, 3, 0, 10, FVal.fin 200⟩]

theorem neighborhood_summary_keys (ls : List Listing) :
    (neighborhood_summary ls).map (fun s => s.neighbourhood) = groupKeys ls := by
  have hmap : ∀ ks : List String,
      ks.map (fun k => (summaryRowOf ls k).neighbourhood) = ks := by
    intro ks
    induction ks with
    | nil => rfl
    | cons a as ih => simp [summaryRowOf, ih]
  unfold neighborhood_summary
  rw [List.map_map]
  exact hmap _

/-- Claim C3: the summary has exactly one row per distinct neighbourhood
present in the input, each row carrying that group's mean price, summed
reviews and row count; on the worked two-neighbourhood example the result
is A with average 150, 8 reviews, count 2 and B with average 50, 1 review,
count 1. -/
theorem neighborhood_summary_correct (ls : List Listing) :
    ((neighborhood_summary ls).map (fun s => s.neighbourhood)).Nodup ∧
    (∀ k, k ∈ (neighborhood_summary ls).map (fun s => s.neighbourhood) ↔
      k ∈ ls.map (fun l => l.neighbourhood)) ∧
    (∀ s ∈ neighborhood_summary ls,
      s.averagePrice = ((groupOf ls s.neighbourhood).map (fun l => l.price)).sum /
          ((groupOf ls s.neighbourhood).length : ℚ) ∧
      s.totalReviews = ((groupOf ls s.neighbourhood).map (fun l => l.number_of_reviews)).sum ∧
      s.availableListingsCount = (groupOf ls s.neighbourhood).length) ∧
    neighborhood_summary exTableC3 = [⟨"A", 150, 8, 2⟩, ⟨"B", 50, 1, 1⟩] := by
  refine ⟨?_, ?_, ?_, ?_⟩
  · rw [neighborhood_summary_keys]
    exact ((List.perm_insertionSort _ _).symm.nodup (List.nodup_dedup _))
  · intro k
    rw [neighborhood_summary_keys]
    unfold groupKeys
    rw [List.mem_insertionSort, List.mem_dedup]
  · intro s hs
    obtain ⟨k, _, rfl⟩ := List.mem_map.mp hs
    exact ⟨rfl, rfl, rfl⟩
  · have hA : summaryRowOf exTableC3 "A" = ⟨"A", 150, 8, 2⟩ := by
      rw [show summaryRowOf exTableC3 "A" =
        ⟨"A", ((100 : ℚ) + (200 + 0)) / ((2 : ℕ) : ℚ), 5 + (3 + 0), 2⟩ from rfl]
      norm_num
    have hB : summaryRowOf exTableC3 "B" = ⟨"B", 50, 1, 1⟩ := by
      rw [show summaryRowOf exTableC3 "B" =
        ⟨"B", ((50 : ℚ) + 0) / ((1 : ℕ) : ℚ), 1 + 0, 1⟩ from rfl]
      norm_num
    rw [show neighborhood_summary exTableC3 =
      [summaryRowOf exTableC3 "A", summaryRowOf exTableC3 "B"] from rfl, hA, hB]

/- ### Descending sort and top-N (`sorted_listings`, lines 179-181) -/

/-- The sort behind `sort_values(by=metric, ascending=False)`: descending
by the metric, ties kept in original row order (the deterministic tie
policy the specification fixes for the library sort). -/
def sort_values (metric : Listing → ℚ) (ls : List Listing) : List Listing :=
  @List.insertionSort Listing (fun a b => metric b ≤ metric a)
    (fun a b => inferInstanceAs (Decidable (metric b ≤ metric a))) ls

/-- The generalised top-N query of the specification, `topByMetric`: sort
descending by the metric and keep the first `n` rows (`head(n)`). -/
def top_by_metric (metric : Listing → ℚ) (ls : List Listing) (n : ℕ) : List Listing :=
  (sort_values metric ls).take n

/-- The variable `sorted_listings` of line 179: the filtered table sorted
by price descending. -/
def sorted_listings (ls : List Listing) : List Listing :=
  sort_values (fun l => l.price) ls

/-- The `head(20)` slice the chart of line 181 consumes. -/
def top20_by_price (ls : List Listing) : List Listing :=
  (sorted_listings ls).take 20

/-- Claim C4: `top_by_metric` returns `min n (length)` rows, so all rows
when the table is shorter than `n` and never a failure; the rows are
ordered by the metric descending; the sort is a permutation of the table
that keeps rows of equal metric in original order (for each metric value,
filtering the sorted table gives back exactly the input's rows with that
value, in input order); and the top-20-by-price view of line 181 is the
instance at `price` and 20. -/
theorem top_by_metric_correct (metric : Listing → ℚ) (ls : List Listing) (n : ℕ) :
    (top_by_metric metric ls n).length = min n ls.length ∧
    List.Pairwise (fun a b => metric b ≤ metric a) (top_by_metric metric ls n) ∧
    List.Perm (sort_values metric ls) ls ∧
    top_by_metric metric ls n = (sort_values metric ls).take n ∧
    (∀ v : ℚ, (sort_values metric ls).filter (fun l => metric l == v) =
      ls.filter (fun l => metric l == v)) ∧
    top20_by_price ls = top_by_metric (fun l => l.price) ls 20 := by
  letI instD : DecidableRel (fun a b : Listing => metric b ≤ metric a) :=
    fun a b => inferInstanceAs (Decidable (metric b ≤ metric a))
  haveI instTot : IsTotal Listing (fun a b => metric b ≤ metric a) :=
    ⟨fun a b => le_total (metric b) (metric a)⟩
  haveI instTr : IsTrans Listing (fun a b => metric b ≤ metric a) :=
    ⟨fun a b c h1 h2 => le_trans h2 h1⟩
  have hsorted : List.Pairwise (fun a b => metric b ≤ metric a) (sort_values metric ls) :=
    List.sorted_insertionSort (fun a b => metric b ≤ metric a) ls
  have hperm : List.Perm (sort_values metric ls) ls :=
    List.perm_insertionSort (fun a b => metric b ≤ metric a) ls
  refine ⟨?_, ?_, hperm, rfl, ?_, rfl⟩
  · unfold top_by_metric
    rw [List.length_take]
    unfold sort_values
    rw [List.length_insertionSort]
  · exact List.Pairwise.sublist (List.take_sublist n _) hsorted
  · intro v
    have hsubl : List.Sublist (ls.filter (fun l => metric l == v)) ls := List.filter_sublist ls
    have hpw : (ls.filter (fun l => metric l == v)).Pairwise
        (fun a b => metric b ≤ metric a) := by
      apply List.pairwise_of_forall_mem_list
      intro a ha b hb
      have ha2 : metric a = v := by simpa using (List.mem_filter.mp ha).2
      have hb2 : metric b = v := by simpa using (List.mem_filter.mp hb).2
      rw [ha2, hb2]
    have hst : List.Sublist (ls.filter (fun l => metric l == v)) (sort_values metric ls) :=
      List.sublist_insertionSort hpw hsubl
    have hcc : (ls.filter (fun l => metric l == v)).filter (fun l => metric l == v) =
        ls.filter (fun l => metric l == v) :=
      List.filter_eq_self.mpr (fun a ha => (List.mem_filter.mp ha).2)
    have hsub2 : List.Sublist (ls.filter (fun l => metric l == v))
        ((sort_values metric ls).filter (fun l => metric l == v)) :=
      hcc ▸ hst.filter (fun l => metric l == v)
    have hlen : ((sort_values metric ls).filter (fun l => metric l == v)).length =
        (ls.filter (fun l => metric l == v)).length :=
      (hperm.filter _).length_eq
    exact (hsub2.eq_of_length hlen.symm).symm

end AirbnbPipeline
